import Mathlib

/-!
# Interval Tree Clocks — verification of the ID-tree and Event-tree core

Shallow embedding of `src/interval_tree_clocks.py`. The two recursive
dataclasses `IDInteger`/`IDTuple` and `Event` are modelled as inductive
types; Python's unbounded signed integers are modelled as `Int` (node
counts as `Nat`); Python's `Optional[Event]` tops as `Option Event`;
operations that can raise are modelled in `Except PyErr`.

Python's runtime constructor checks (`__post_init__`) are modelled
separately (`event_post_init`, `idtuple_post_init`); the tree operations
are modelled as total functions on raw trees, and theorems carry the
well-formedness hypotheses (`Event.wf`, `ID.wf`) that characterise the
values actually constructible in Python, on which the constructor checks
provably never fire.
-/

/-- The Python exception classes raised by the module. -/
inductive PyErr where
  | zeroDivisionError
  | attributeError
  | valueError
  | typeError
  | runtimeError
  deriving DecidableEq, Repr

/-! ## ID trees: `IDInteger` and `IDTuple` -/

/-- An ID tree: `leaf v` models `IDInteger(v)` (the source restricts `v` to
`{0, 1}` in `__post_init__`); `node l r` models `IDTuple(l, r)`. -/
inductive ID where
  | leaf (value : Nat)
  | node (left right : ID)
  deriving DecidableEq, Repr

/-- Python truthiness: `IDInteger.__bool__` is `bool(self.value)`;
`IDTuple.__bool__` is `bool(self.left) or bool(self.right)`. -/
def ID.truthy : ID → Bool
  | .leaf v => v != 0
  | .node l r => l.truthy || r.truthy

/-- The values constructible in Python: leaves carry `0` or `1`
(`IDInteger.__post_init__`) and no node is wholly empty
(`IDTuple.__post_init__`). -/
def ID.wf : ID → Bool
  | .leaf v => v ≤ 1
  | .node l r => l.wf && r.wf && (l.truthy || r.truthy)

/-- `IDTuple.__post_init__` (src lines 65-74): raises `TypeError` when the
tuple is wholly empty (`if not self`). -/
def idtuple_post_init (l r : ID) : Except PyErr Unit :=
  if l.truthy || r.truthy then .ok () else .error .typeError

/-- `IDInteger.fork` (src lines 20-32) and `IDTuple.fork` (src lines
76-101). Forking an empty id raises `ZeroDivisionError`. -/
def ID.fork : ID → Except PyErr (ID × ID)
  | .leaf v =>
    if v != 0 then
      .ok (.node (.leaf v) (.leaf 0), .node (.leaf 0) (.leaf v))
    else
      .error .zeroDivisionError
  | .node l r =>
    if l.truthy && r.truthy then
      .ok (.node l (.leaf 0), .node (.leaf 0) r)
    else if l.truthy then
      match l.fork with
      | .ok (l1, l2) => .ok (.node l1 (.leaf 0), .node l2 (.leaf 0))
      | .error e => .error e
    else if r.truthy then
      match r.fork with
      | .ok (r1, r2) => .ok (.node (.leaf 0) r1, .node (.leaf 0) r2)
      | .error e => .error e
    else
      .error .zeroDivisionError

/-- `IDInteger.normalize` and `IDTuple.normalize` (src lines 48-52 and
123-136): normalize both halves, then collapse `(v, v)` to `v` when both
halves are bare integers with the same value. -/
def ID.normalize : ID → ID
  | .leaf v => .leaf v
  | .node l r =>
    let ln := l.normalize
    let rn := r.normalize
    match ln, rn with
    | .leaf a, .leaf b => if a = b then .leaf a else .node (.leaf a) (.leaf b)
    | _, _ => .node ln rn

/-- `IDInteger.join` and `IDTuple.join` (src lines 34-46 and 103-121). -/
def ID.join : ID → ID → ID
  | .leaf v, other => if v != 0 then .leaf v else other
  | .node l r, .leaf v => if v != 0 then .leaf v else .node l r
  | .node l r, .node l2 r2 => (ID.node (l.join l2) (r.join r2)).normalize

/-! ## Event trees -/

/-- An Event tree: `mk base top_left top_right` models the frozen dataclass
`Event(base, top_left, top_right)` (src lines 144-169), with `None` tops as
`none`. -/
inductive Event where
  | mk (base : Int) (top_left : Option Event) (top_right : Option Event)
  deriving Repr

def Event.base : Event → Int
  | .mk b _ _ => b

def Event.top_left : Event → Option Event
  | .mk _ tl _ => tl

def Event.top_right : Event → Option Event
  | .mk _ _ tr => tr

/-- Decidable structural equality for the nested inductive. -/
def Event.decEq : (a b : Event) → Decidable (a = b)
  | .mk b1 tl1 tr1, .mk b2 tl2 tr2 =>
    have dtl : Decidable (tl1 = tl2) :=
      match tl1, tl2 with
      | none, none => isTrue rfl
      | some x, some y =>
        match Event.decEq x y with
        | isTrue h => isTrue (congrArg some h)
        | isFalse h => isFalse (fun hh => h (Option.some.inj hh))
      | none, some _ => isFalse (fun hh => by cases hh)
      | some _, none => isFalse (fun hh => by cases hh)
    have dtr : Decidable (tr1 = tr2) :=
      match tr1, tr2 with
      | none, none => isTrue rfl
      | some x, some y =>
        match Event.decEq x y with
        | isTrue h => isTrue (congrArg some h)
        | isFalse h => isFalse (fun hh => h (Option.some.inj hh))
      | none, some _ => isFalse (fun hh => by cases hh)
      | some _, none => isFalse (fun hh => by cases hh)
    match Int.decEq b1 b2, dtl, dtr with
    | isTrue h1, isTrue h2, isTrue h3 => isTrue (by rw [h1, h2, h3])
    | isFalse h1, _, _ => isFalse (by intro hh; injection hh; contradiction)
    | _, isFalse h2, _ => isFalse (by intro hh; injection hh; contradiction)
    | _, _, isFalse h3 => isFalse (by intro hh; injection hh; contradiction)

instance : DecidableEq Event := Event.decEq

/-- `Event()`: the empty event `(0, None, None)`. -/
def Event.empty : Event := .mk 0 none none

/-- `Event.__bool__` (src lines 196-201): falsy exactly when the base is
zero and both tops are absent. -/
def Event.truthy : Event → Bool
  | .mk b tl tr => b != 0 || tl.isSome || tr.isSome

/-- Python `e or None` for `e : Event`: a falsy event becomes `None`. -/
def Event.orNone (e : Event) : Option Event :=
  if e.truthy then some e else none

/-- Python `x or None` for `x : Optional[Event]`. -/
def optOrNone : Option Event → Option Event
  | none => none
  | some t => if t.truthy then some t else none

/-- Python `x or Event()` for `x : Optional[Event]`. -/
def Event.orEmpty : Option Event → Event
  | none => Event.empty
  | some t => if t.truthy then t else Event.empty

/-- Truthiness of an optional top, as tested by `if self.top_left:`. -/
def optTruthy : Option Event → Bool
  | none => false
  | some t => t.truthy

/-- `Event.height` (src lines 171-180). -/
def Event.height : Event → Int
  | .mk b tl tr =>
    match tl, tr with
    | some l, some r =>
      if l.truthy && r.truthy then b + max l.height r.height
      else if l.truthy then b + l.height
      else if r.truthy then b + r.height
      else b
    | some l, none => if l.truthy then b + l.height else b
    | none, some r => if r.truthy then b + r.height else b
    | none, none => b

/-- `Event.complexity` (src lines 182-194), with `_overhead = 4`. -/
def Event.complexity : Event → Nat
  | .mk _ tl tr =>
    match tl, tr with
    | some l, some r =>
      if l.truthy && r.truthy then 4 + 1 + l.complexity + r.complexity
      else if l.truthy then 4 + 2 + l.complexity
      else if r.truthy then 4 + 2 + r.complexity
      else 1
    | some l, none => if l.truthy then 4 + 2 + l.complexity else 1
    | none, some r => if r.truthy then 4 + 2 + r.complexity else 1
    | none, none => 1

/-- Node count of an event tree (termination measure for `join` and `le`;
not part of the source). -/
def Event.size : Event → Nat
  | .mk _ tl tr =>
    1 + (match tl with | some t => t.size | none => 0)
      + (match tr with | some t => t.size | none => 0)

/-- `Event.replace` (src lines 344-356) specialised to its only use,
replacing the base: keeps the tops, turning falsy tops into `None`. -/
def Event.replace_base : Event → Int → Event
  | .mk _ tl tr, b => .mk b (optOrNone tl) (optOrNone tr)

/-- `Event.normalize` (src lines 358-383). -/
def Event.normalize : Event → Event
  | .mk b none none => .mk b none none
  | .mk b (some tl) none => .mk b (some tl.normalize) none
  | .mk b none (some tr) => .mk b none (some tr.normalize)
  | .mk b (some tl) (some tr) =>
    let l := tl.normalize
    let r := tr.normalize
    let d := min l.base r.base
    .mk (b + d) (l.replace_base (l.base - d)).orNone (r.replace_base (r.base - d)).orNone

/-- `Event.offset_base` (src lines 330-342). Note that in the deficit
branch the source passes `top.base + base` — not `base` — as the distance
of the recursive call. -/
def Event.offset_base : Event → Int → Event
  | .mk b0 tl0 tr0, distance =>
    let base := b0 + distance
    if base < 0 then
      let tl := match tl0 with
        | some t => if t.truthy then (t.offset_base (t.base + base)).orNone else some t
        | none => none
      let tr := match tr0 with
        | some t => if t.truthy then (t.offset_base (t.base + base)).orNone else some t
        | none => none
      .mk 0 tl tr
    else
      .mk base tl0 tr0

/-- `Event.fill` (src lines 238-257). In the `IDTuple` branch the source
calls `top_left.fill(IDTuple.left)` and `top_right.fill(IDTuple.right)`:
`IDTuple.left` is an attribute lookup on the *class* `IDTuple`, which has
no such attribute (the dataclass fields have no defaults), so the lookup
raises `AttributeError` whenever the corresponding top is truthy. If both
tops are falsy but one is present, the re-construction
`Event(self.base, top_left, top_right)` raises `ValueError` in
`Event.__post_init__`. -/
def Event.fill (e : Event) (interval : ID) : Except PyErr Event :=
  match interval with
  | .leaf v => if v = 1 then .ok (.mk e.height none none) else .ok e
  | .node _ _ =>
    if optTruthy e.top_left then .error .attributeError
    else if optTruthy e.top_right then .error .attributeError
    else if e.top_left.isSome || e.top_right.isSome then .error .valueError
    else .ok (Event.mk e.base e.top_left e.top_right).normalize

/-- The candidate key minimised by `grow`: `(complexity, height)`. -/
def growKey (e : Event) : Nat × Int := (e.complexity, e.height)

/-- Lexicographic `<` on `(complexity, height)` pairs, as produced by
Python's tuple comparison `x[:2] < y[:2]`. -/
def keyLt : Nat × Int → Nat × Int → Bool
  | (c1, h1), (c2, h2) => c1 < c2 || (c1 == c2 && h1 < h2)

/-- Python's `min([x, y, z], key=lambda t: t[:2])[-1]`: iterates left to
right and keeps the current element unless a later one is strictly
smaller, so the *first* element with the minimal key wins. -/
def min3 (x y z : Event) : Event :=
  let best := if keyLt (growKey y) (growKey x) then y else x
  if keyLt (growKey z) (growKey best) then z else best

/-- `Event.grow` (src lines 259-297): rejects non-positive amounts with
`ValueError` before inspecting the event or the id; a wholly-empty
`IDTuple` (unreachable through the Python constructors) raises
`RuntimeError`. -/
def Event.grow (e : Event) (interval : ID) (amount : Int) : Except PyErr Event :=
  if amount ≤ 0 then .error .valueError
  else
    match interval with
    | .leaf v => if v = 1 then .ok (.mk (e.height + amount) none none) else .ok e
    | .node l r =>
      if l.truthy && r.truthy then
        match (Event.orEmpty e.top_left).grow l amount with
        | .error err => .error err
        | .ok tl =>
          match (Event.orEmpty e.top_right).grow r amount with
          | .error err => .error err
          | .ok tr =>
            let grow_left := (Event.mk e.base (some tl) e.top_right).normalize
            let grow_right := (Event.mk e.base e.top_left (some tr)).normalize
            let grow_both := (Event.mk e.base (some tl) (some tr)).normalize
            .ok (min3 grow_left grow_right grow_both)
      else if l.truthy then
        match (Event.orEmpty e.top_left).grow l amount with
        | .error err => .error err
        | .ok tl => .ok (Event.mk e.base (some tl) e.top_right).normalize
      else if r.truthy then
        match (Event.orEmpty e.top_right).grow r amount with
        | .error err => .error err
        | .ok tr => .ok (Event.mk e.base e.top_left (some tr)).normalize
      else .error .runtimeError

/-- `Event.__post_init__` (src lines 150-169): `ValueError` on a negative
base and on a present-but-falsy top (the base and top type checks are
enforced by the embedding's types). -/
def event_post_init (b : Int) (tl tr : Option Event) : Except PyErr Unit :=
  if b < 0 then .error .valueError
  else
    match tl with
    | some t =>
      if t.truthy then
        match tr with
        | some u => if u.truthy then .ok () else .error .valueError
        | none => .ok ()
      else .error .valueError
    | none =>
      match tr with
      | some u => if u.truthy then .ok () else .error .valueError
      | none => .ok ()

/-- The values constructible in Python: base non-negative and present tops
truthy, recursively (`Event.__post_init__`). -/
def Event.wf : Event → Bool
  | .mk b tl tr =>
    decide (0 ≤ b)
    && (match tl with | some t => t.truthy && t.wf | none => true)
    && (match tr with | some t => t.truthy && t.wf | none => true)

/-- The canonical shape asserted by the spec's invariant E3: no
present-but-empty top, and wherever both tops are present the smaller of
their bases is `0`, recursively. -/
def Event.canonical : Event → Bool
  | .mk _ tl tr =>
    (match tl with | some t => t.truthy && t.canonical | none => true)
    && (match tr with | some t => t.truthy && t.canonical | none => true)
    && (match tl, tr with
        | some l, some r => min l.base r.base == 0
        | _, _ => true)

/-- Structural induction principle for the nested inductive `Event`. -/
theorem Event.induct (P : Event → Prop)
    (h : ∀ b tl tr, (∀ t, tl = some t → P t) → (∀ t, tr = some t → P t) →
      P (.mk b tl tr)) :
    ∀ e, P e
  | .mk b tl tr =>
    h b tl tr
      (fun t ht => by
        cases tl with
        | none => exact absurd ht (by simp)
        | some u => exact Option.some.inj ht ▸ Event.induct P h u)
      (fun t ht => by
        cases tr with
        | none => exact absurd ht (by simp)
        | some u => exact Option.some.inj ht ▸ Event.induct P h u)

theorem Event.size_pos : ∀ e : Event, 0 < e.size := by
  intro e
  cases e with
  | mk b tl tr => cases tl <;> cases tr <;> simp [Event.size]

theorem Event.size_tl_lt {e t : Event} (h : e.top_left = some t) :
    t.size < e.size := by
  cases e with
  | mk b tl tr =>
    simp only [Event.top_left] at h
    subst h
    cases tr <;> simp [Event.size] <;> omega

theorem Event.size_tr_lt {e t : Event} (h : e.top_right = some t) :
    t.size < e.size := by
  cases e with
  | mk b tl tr =>
    simp only [Event.top_right] at h
    subst h
    cases tl <;> simp [Event.size] <;> omega

/-- Size of an optional top. -/
def optSize : Option Event → Nat
  | some t => t.size
  | none => 0

theorem Event.size_mk (b : Int) (tl tr : Option Event) :
    (Event.mk b tl tr).size = 1 + optSize tl + optSize tr := by
  cases tl <;> cases tr <;> rfl

theorem Event.optSize_orNone_le (e : Event) : optSize e.orNone ≤ e.size := by
  unfold Event.orNone
  split <;> simp [optSize]

theorem optSize_optOrNone_le (o : Option Event) :
    optSize (optOrNone o) ≤ optSize o := by
  cases o with
  | none => exact le_refl _
  | some t =>
    show optSize (if t.truthy then some t else none) ≤ optSize (some t)
    split <;> simp [optSize]

theorem optSize_offTop_le (t : Event) (d : Int)
    (ih : ∀ x, (t.offset_base x).size ≤ t.size) :
    optSize (if t.truthy then (t.offset_base d).orNone else some t) ≤ t.size := by
  split
  · calc optSize (t.offset_base d).orNone
        ≤ (t.offset_base d).size := Event.optSize_orNone_le _
      _ ≤ t.size := ih d
  · exact le_of_eq rfl

theorem Event.size_offset_le : ∀ (e : Event) (d : Int),
    (e.offset_base d).size ≤ e.size := by
  intro e
  induction e using Event.induct with
  | h b tl tr ihl ihr =>
    intro d
    cases tl with
    | none =>
      cases tr with
      | none =>
        show (if b + d < 0 then Event.mk 0 none none
          else Event.mk (b + d) none none).size ≤ (Event.mk b none none).size
        split <;> exact le_of_eq rfl
      | some y =>
        have hy : ∀ x, (y.offset_base x).size ≤ y.size := fun x => ihr y rfl x
        show (if b + d < 0 then
            Event.mk 0 none
              (if y.truthy then (y.offset_base (y.base + (b + d))).orNone else some y)
          else Event.mk (b + d) none (some y)).size ≤ (Event.mk b none (some y)).size
        split
        · rw [Event.size_mk, Event.size_mk]
          have := optSize_offTop_le y (y.base + (b + d)) hy
          have h2 : optSize (some y) = y.size := rfl
          omega
        · exact le_of_eq rfl
    | some x =>
      have hx : ∀ z, (x.offset_base z).size ≤ x.size := fun z => ihl x rfl z
      cases tr with
      | none =>
        show (if b + d < 0 then
            Event.mk 0
              (if x.truthy then (x.offset_base (x.base + (b + d))).orNone else some x)
              none
          else Event.mk (b + d) (some x) none).size ≤ (Event.mk b (some x) none).size
        split
        · rw [Event.size_mk, Event.size_mk]
          have := optSize_offTop_le x (x.base + (b + d)) hx
          have h2 : optSize (some x) = x.size := rfl
          omega
        · exact le_of_eq rfl
      | some y =>
        have hy : ∀ z, (y.offset_base z).size ≤ y.size := fun z => ihr y rfl z
        show (if b + d < 0 then
            Event.mk 0
              (if x.truthy then (x.offset_base (x.base + (b + d))).orNone else some x)
              (if y.truthy then (y.offset_base (y.base + (b + d))).orNone else some y)
          else Event.mk (b + d) (some x) (some y)).size ≤
          (Event.mk b (some x) (some y)).size
        split
        · rw [Event.size_mk, Event.size_mk]
          have h1 := optSize_offTop_le x (x.base + (b + d)) hx
          have h2 := optSize_offTop_le y (y.base + (b + d)) hy
          have h3 : optSize (some x) = x.size := rfl
          have h4 : optSize (some y) = y.size := rfl
          omega
        · exact le_of_eq rfl

theorem Event.size_replace_base_le (e : Event) (b : Int) :
    (e.replace_base b).size ≤ e.size := by
  cases e with
  | mk b0 tl tr =>
    rw [Event.replace_base, Event.size_mk, Event.size_mk]
    have h1 := optSize_optOrNone_le tl
    have h2 := optSize_optOrNone_le tr
    omega

theorem Event.size_normalize_le : ∀ e : Event, e.normalize.size ≤ e.size := by
  intro e
  induction e using Event.induct with
  | h b tl tr ihl ihr =>
    cases tl with
    | none =>
      cases tr with
      | none => rw [Event.normalize]
      | some y =>
        rw [Event.normalize, Event.size_mk, Event.size_mk]
        have := ihr y rfl
        simp only [optSize]
        omega
    | some x =>
      cases tr with
      | none =>
        rw [Event.normalize, Event.size_mk, Event.size_mk]
        have := ihl x rfl
        simp only [optSize]
        omega
      | some y =>
        rw [Event.normalize, Event.size_mk, Event.size_mk]
        have hx := ihl x rfl
        have hy := ihr y rfl
        have h1 : optSize (x.normalize.replace_base
            (x.normalize.base - min x.normalize.base y.normalize.base)).orNone ≤ x.size :=
          calc optSize (x.normalize.replace_base
              (x.normalize.base - min x.normalize.base y.normalize.base)).orNone
              ≤ (x.normalize.replace_base
                (x.normalize.base - min x.normalize.base y.normalize.base)).size :=
                Event.optSize_orNone_le _
            _ ≤ x.normalize.size := Event.size_replace_base_le _ _
            _ ≤ x.size := hx
        have h2 : optSize (y.normalize.replace_base
            (y.normalize.base - min x.normalize.base y.normalize.base)).orNone ≤ y.size :=
          calc optSize (y.normalize.replace_base
              (y.normalize.base - min x.normalize.base y.normalize.base)).orNone
              ≤ (y.normalize.replace_base
                (y.normalize.base - min x.normalize.base y.normalize.base)).size :=
                Event.optSize_orNone_le _
            _ ≤ y.normalize.size := Event.size_replace_base_le _ _
            _ ≤ y.size := hy
        have hx2 : optSize (some x) = x.size := rfl
        have hy2 : optSize (some y) = y.size := rfl
        omega

theorem Event.size_orEmpty_le {e : Event} (o : Option Event)
    (h : ∀ u, o = some u → u.size < e.size) : (Event.orEmpty o).size ≤ e.size := by
  cases o with
  | none =>
    have := Event.size_pos e
    simp [Event.orEmpty, Event.empty, Event.size]
    omega
  | some t =>
    rw [Event.orEmpty]
    split
    · exact le_of_lt (h t rfl)
    · have := Event.size_pos e
      simp [Event.empty, Event.size]
      omega

/-- `Event.join` (src lines 299-328). If `self` is falsy return `other` and
vice versa; if `self.base < other.base` swap; then merge each side,
offsetting `other`'s tops by `other.base - self.base`; the result is
re-assembled *without* a final `normalize`. -/
def Event.join (a b : Event) : Event :=
  if a.truthy = false then b
  else if b.truthy = false then a
  else if h : a.base < b.base then Event.join b a
  else
    let tl : Option Event :=
      match h1 : a.top_left, h2 : b.top_left with
      | some x, some y =>
        if x.truthy && y.truthy then
          some (Event.join x (y.offset_base (b.base - a.base)))
        else if x.truthy then some x
        else if y.truthy then some (y.offset_base (b.base - a.base))
        else none
      | some x, none => if x.truthy then some x else none
      | none, some y => if y.truthy then some (y.offset_base (b.base - a.base)) else none
      | none, none => none
    let tr : Option Event :=
      match h1 : a.top_right, h2 : b.top_right with
      | some x, some y =>
        if x.truthy && y.truthy then
          some (Event.join x (y.offset_base (b.base - a.base)))
        else if y.truthy then some (y.offset_base (b.base - a.base))
        else if x.truthy then some x
        else none
      | none, some y => if y.truthy then some (y.offset_base (b.base - a.base)) else none
      | some x, none => if x.truthy then some x else none
      | none, none => none
    Event.mk a.base (optOrNone tl) (optOrNone tr)
termination_by (a.size + b.size, if a.base < b.base then 1 else 0)
decreasing_by
  · apply Prod.Lex.right'
    · omega
    · rw [if_neg (show ¬ b.base < a.base by omega), if_pos h]
      omega
  · apply Prod.Lex.left
    have hx : x.size < a.size := Event.size_tl_lt h1
    have hy : (y.offset_base (b.base - a.base)).size ≤ y.size :=
      Event.size_offset_le y _
    have hyb : y.size < b.size := Event.size_tl_lt h2
    omega
  · apply Prod.Lex.left
    have hx : x.size < a.size := Event.size_tr_lt h1
    have hy : (y.offset_base (b.base - a.base)).size ≤ y.size :=
      Event.size_offset_le y _
    have hyb : y.size < b.size := Event.size_tr_lt h2
    omega

/-- `Event.__le__` (src lines 218-236): normalize both sides, require
`self.base ≤ other.base`, and for each truthy top of `self` recursively
compare it, offset by `self.base - other.base`, against the matching top of
`other` (or the empty event). -/
def Event.le (a b : Event) : Bool :=
  if (b.normalize).base < (a.normalize).base then false
  else
    (match h1 : (a.normalize).top_left with
     | some t =>
       if t.truthy then
         Event.le (t.offset_base ((a.normalize).base - (b.normalize).base))
           (Event.orEmpty (b.normalize).top_left)
       else true
     | none => true)
    &&
    (match h2 : (a.normalize).top_right with
     | some t =>
       if t.truthy then
         Event.le (t.offset_base ((a.normalize).base - (b.normalize).base))
           (Event.orEmpty (b.normalize).top_right)
       else true
     | none => true)
termination_by a.size + b.size
decreasing_by
  · have h3 : t.size < (a.normalize).size := Event.size_tl_lt h1
    have h4 : (a.normalize).size ≤ a.size := Event.size_normalize_le a
    have h5 : (t.offset_base ((a.normalize).base - (b.normalize).base)).size ≤ t.size :=
      Event.size_offset_le t _
    have h6 : (Event.orEmpty (b.normalize).top_left).size ≤ b.size := by
      apply Event.size_orEmpty_le
      intro u hu
      have := Event.size_tl_lt hu
      have := Event.size_normalize_le b
      omega
    omega
  · have h3 : t.size < (a.normalize).size := Event.size_tr_lt h2
    have h4 : (a.normalize).size ≤ a.size := Event.size_normalize_le a
    have h5 : (t.offset_base ((a.normalize).base - (b.normalize).base)).size ≤ t.size :=
      Event.size_offset_le t _
    have h6 : (Event.orEmpty (b.normalize).top_right).size ≤ b.size := by
      apply Event.size_orEmpty_le
      intro u hu
      have := Event.size_tr_lt hu
      have := Event.size_normalize_le b
      omega
    omega

/-- Reference denotation, following the spec's words: an Event represents a
piecewise-constant function over the interval; the count at a position is
`base` plus the count contributed by the subtree covering that half. A
position is an infinite binary path (`true` selects the left half). -/
def valueAt (e : Event) (s : Nat → Bool) : Int :=
  match e with
  | .mk b tl tr =>
    if s 0 then
      b + (match tl with
           | some t => valueAt t (fun n => s (n + 1))
           | none => 0)
    else
      b + (match tr with
           | some t => valueAt t (fun n => s (n + 1))
           | none => 0)

/-- Modelled from the spec (claim C6 / §4.2 `truncate`): lower the base by
`d`, clamped at zero; if the subtraction would make the base negative, push
the deficit into each present top by lowering its local base by the same
deficit, truncating recursively; tops that become empty are replaced by
absent. -/
def truncate_spec (e : Event) (d : Int) : Event :=
  match e with
  | .mk b tl tr =>
    if d ≤ b then .mk (b - d) tl tr
    else
      .mk 0
        (match tl with
         | some t => (truncate_spec t (d - b)).orNone
         | none => none)
        (match tr with
         | some t => (truncate_spec t (d - b)).orNone
         | none => none)

/-! ## Helper lemmas about ID trees -/

theorem ID.join_leaf_zero : ∀ x : ID, x.join (.leaf 0) = x := by
  intro x
  cases x with
  | leaf v =>
    by_cases h : v = 0
    · subst h; simp [ID.join]
    · simp [ID.join, h]
  | node l r => simp [ID.join]

theorem ID.leaf_zero_join : ∀ x : ID, (ID.leaf 0).join x = x := by
  intro x
  simp [ID.join]

theorem ID.normalize_idem : ∀ x : ID, x.normalize.normalize = x.normalize := by
  intro x
  induction x with
  | leaf v => rfl
  | node l r ihl ihr =>
    rw [ID.normalize]
    rcases hl : l.normalize with v | ⟨a1, a2⟩ <;>
      rcases hr : r.normalize with w | ⟨b1, b2⟩
    · by_cases hvw : v = w
      · subst hvw; simp [ID.normalize]
      · simp only [hvw, if_neg, not_false_iff]
        rw [ID.normalize]
        simp [ID.normalize, hvw]
    · rw [ID.normalize]
      rw [show (ID.leaf v).normalize = .leaf v from rfl]
      rw [← hr, ihr, hr]
    · rw [ID.normalize]
      rw [show (ID.leaf w).normalize = .leaf w from rfl]
      rw [← hl, ihl, hl]
    · rw [ID.normalize]
      rw [← hl, ihl, hl, ← hr, ihr, hr]

theorem ID.normalize_node_left (l r : ID) :
    (ID.node l.normalize r).normalize = (ID.node l r).normalize := by
  rw [ID.normalize, ID.normalize, ID.normalize_idem]

theorem ID.normalize_node_right (l r : ID) :
    (ID.node l r.normalize).normalize = (ID.node l r).normalize := by
  rw [ID.normalize, ID.normalize, ID.normalize_idem]

theorem ID.wf_not_truthy : ∀ x : ID, x.wf = true → x.truthy = false → x = .leaf 0 := by
  intro x hw ht
  cases x with
  | leaf v =>
    simp only [ID.truthy, bne_eq_false_iff_eq] at ht
    rw [ht]
  | node l r =>
    simp only [ID.wf, Bool.and_eq_true, Bool.or_eq_true] at hw
    simp only [ID.truthy, Bool.or_eq_false_iff] at ht
    rcases hw.2 with h | h
    · rw [ht.1] at h; cases h
    · rw [ht.2] at h; cases h

/-! ## C3: fork/join round trip -/

/-- C3 (counterexample): the claim "for every non-empty id `x`, canonical
or not, `join(fork(x).0, fork(x).1) == x`" fails at the non-canonical
truthy id `IDTuple(IDInteger(1), IDInteger(1))`: forking gives
`(Node(1,0), Node(0,1))` and joining those returns `IDInteger(1)`, which is
not structurally equal to `Node(1,1)`. -/
theorem C3_fork_join_cex :
    (ID.node (.leaf 1) (.leaf 1)).truthy = true ∧
    (ID.node (.leaf 1) (.leaf 1)).fork
      = .ok (.node (.leaf 1) (.leaf 0), .node (.leaf 0) (.leaf 1)) ∧
    (ID.node (.leaf 1) (.leaf 0)).join (.node (.leaf 0) (.leaf 1)) = .leaf 1 ∧
    ID.leaf 1 ≠ ID.node (.leaf 1) (.leaf 1) := by
  refine ⟨rfl, rfl, rfl, ?_⟩
  decide

/-- C3 (amended): for every non-empty well-formed id `x`,
`join(fork(x).0, fork(x).1) == normalize(x)` — hence `== x` exactly when
`x` is already normalization-stable (it is for every id produced by the
library itself). -/
theorem C3_fork_join_normalize : ∀ x : ID, x.wf = true → x.truthy = true →
    ∃ a b : ID, x.fork = .ok (a, b) ∧ a.join b = x.normalize := by
  intro x
  induction x with
  | leaf v =>
    intro _ ht
    simp only [ID.truthy] at ht
    refine ⟨.node (.leaf v) (.leaf 0), .node (.leaf 0) (.leaf v), ?_, ?_⟩
    · simp [ID.fork, ht]
    · show (ID.node ((ID.leaf v).join (.leaf 0)) ((ID.leaf 0).join (.leaf v))).normalize
        = (ID.leaf v).normalize
      rw [ID.join_leaf_zero, ID.leaf_zero_join]
      simp [ID.normalize]
  | node l r ihl ihr =>
    intro hw ht
    simp only [ID.wf, Bool.and_eq_true, Bool.or_eq_true] at hw
    obtain ⟨⟨hwl, hwr⟩, hlr⟩ := hw
    by_cases hl : l.truthy = true
    · by_cases hr : r.truthy = true
      · refine ⟨.node l (.leaf 0), .node (.leaf 0) r, ?_, ?_⟩
        · simp [ID.fork, hl, hr]
        · show (ID.node (l.join (.leaf 0)) ((ID.leaf 0).join r)).normalize
            = (ID.node l r).normalize
          rw [ID.join_leaf_zero, ID.leaf_zero_join]
      · have hr0 : r = .leaf 0 :=
          ID.wf_not_truthy r hwr (by revert hr; cases r.truthy <;> simp)
        subst hr0
        obtain ⟨l1, l2, hfork, hjoin⟩ := ihl hwl hl
        refine ⟨.node l1 (.leaf 0), .node l2 (.leaf 0), ?_, ?_⟩
        · rw [ID.fork]
          simp only [hl]
          have : (ID.leaf 0).truthy = false := rfl
          simp only [this, Bool.and_false, Bool.false_eq_true, if_false, if_true,
            Bool.true_eq_false]
          rw [hfork]
        · show (ID.node (l1.join l2) ((ID.leaf 0).join (.leaf 0))).normalize
            = (ID.node l (.leaf 0)).normalize
          rw [hjoin, ID.leaf_zero_join, ID.normalize_node_left]
    · rcases hlr with h | hr
      · exact absurd h hl
      · have hl0 : l = .leaf 0 :=
          ID.wf_not_truthy l hwl (by revert hl; cases l.truthy <;> simp)
        subst hl0
        obtain ⟨r1, r2, hfork, hjoin⟩ := ihr hwr hr
        refine ⟨.node (.leaf 0) r1, .node (.leaf 0) r2, ?_, ?_⟩
        · rw [ID.fork]
          have h0 : (ID.leaf 0).truthy = false := rfl
          simp only [h0, Bool.false_and, Bool.false_eq_true, if_false, hr, if_true]
          rw [hfork]
        · show (ID.node ((ID.leaf 0).join (.leaf 0)) (r1.join r2)).normalize
            = (ID.node (.leaf 0) r).normalize
          rw [hjoin, ID.leaf_zero_join, ID.normalize_node_right]

/-- Witness for C3 at the concrete id `Node(Leaf(1), Leaf(0))`. -/
theorem C3_fork_join_normalize_witness :
    (ID.node (.leaf 1) (.leaf 0)).wf = true ∧
    (ID.node (.leaf 1) (.leaf 0)).truthy = true ∧
    ∃ a b : ID, (ID.node (.leaf 1) (.leaf 0)).fork = .ok (a, b) ∧
      a.join b = (ID.node (.leaf 1) (.leaf 0)).normalize :=
  ⟨by decide, by decide,
    C3_fork_join_normalize (.node (.leaf 1) (.leaf 0)) (by decide) (by decide)⟩

/-! ## C7: fork on an empty id fails, on a non-empty id succeeds -/

/-- C7: forking an id with no ownership — `IDInteger(0)` or a wholly-empty
node — raises the empty-fork error (realised in the source as
`ZeroDivisionError`), and forking any non-empty id returns a pair. -/
theorem C7_fork_empty_partition : ∀ x : ID,
    (x.truthy = false → x.fork = .error .zeroDivisionError) ∧
    (x.truthy = true → ∃ p, x.fork = .ok p) := by
  intro x
  induction x with
  | leaf v =>
    constructor
    · intro ht
      simp only [ID.truthy] at ht
      simp [ID.fork, ht]
    · intro ht
      simp only [ID.truthy] at ht
      refine ⟨(.node (.leaf v) (.leaf 0), .node (.leaf 0) (.leaf v)), ?_⟩
      simp [ID.fork, ht]
  | node l r ihl ihr =>
    constructor
    · intro ht
      simp only [ID.truthy, Bool.or_eq_false_iff] at ht
      simp [ID.fork, ht.1, ht.2]
    · intro ht
      simp only [ID.truthy, Bool.or_eq_true] at ht
      by_cases hl : l.truthy = true
      · by_cases hr : r.truthy = true
        · refine ⟨(.node l (.leaf 0), .node (.leaf 0) r), ?_⟩
          simp [ID.fork, hl, hr]
        · have hrf : r.truthy = false := by revert hr; cases r.truthy <;> simp
          obtain ⟨⟨p1, p2⟩, hp⟩ := ihl.2 hl
          refine ⟨(.node p1 (.leaf 0), .node p2 (.leaf 0)), ?_⟩
          rw [ID.fork]
          simp only [hrf, Bool.and_false, Bool.false_eq_true, if_false, hl, if_true]
          rw [hp]
      · have hlf : l.truthy = false := by revert hl; cases l.truthy <;> simp
        have hr : r.truthy = true := by
          rcases ht with h | h
          · exact absurd h hl
          · exact h
        obtain ⟨⟨p1, p2⟩, hp⟩ := ihr.2 hr
        refine ⟨(.node (.leaf 0) p1, .node (.leaf 0) p2), ?_⟩
        rw [ID.fork]
        simp only [hlf, Bool.false_and, Bool.false_eq_true, if_false, hr, if_true]
        rw [hp]

/-- Witness for C7 at `IDInteger(0)` (failure) and `IDInteger(1)`
(success). -/
theorem C7_fork_empty_partition_witness :
    (ID.leaf 0).truthy = false ∧ (ID.leaf 0).fork = .error .zeroDivisionError ∧
    (ID.leaf 1).truthy = true ∧ ∃ p, (ID.leaf 1).fork = .ok p :=
  ⟨by decide, (C7_fork_empty_partition (.leaf 0)).1 (by decide), by decide,
    (C7_fork_empty_partition (.leaf 1)).2 (by decide)⟩

/-! ## C2: grow minimality and its tie-break -/

theorem keyLt_iff (k1 k2 : Nat × Int) :
    keyLt k1 k2 = true ↔ (k1.1 < k2.1 ∨ (k1.1 = k2.1 ∧ k1.2 < k2.2)) := by
  rcases k1 with ⟨c1, h1⟩
  rcases k2 with ⟨c2, h2⟩
  simp [keyLt]

theorem keyLt_ff_iff (k1 k2 : Nat × Int) :
    keyLt k1 k2 = false ↔ ¬(k1.1 < k2.1 ∨ (k1.1 = k2.1 ∧ k1.2 < k2.2)) := by
  rw [← keyLt_iff]
  cases keyLt k1 k2 <;> simp

/-- Full description of `min3`: the result is one of the three candidates,
no candidate has a strictly smaller `(complexity, height)` key, and
`min3` is left-biased: if the first candidate's key is minimal (in
particular on a three-way tie) the first candidate is returned. -/
theorem min3_spec (x y z : Event) :
    (min3 x y z = x ∨ min3 x y z = y ∨ min3 x y z = z) ∧
    keyLt (growKey x) (growKey (min3 x y z)) = false ∧
    keyLt (growKey y) (growKey (min3 x y z)) = false ∧
    keyLt (growKey z) (growKey (min3 x y z)) = false ∧
    (keyLt (growKey x) (growKey y) = false ∧ keyLt (growKey y) (growKey x) = false →
      keyLt (growKey x) (growKey z) = false ∧ keyLt (growKey z) (growKey x) = false →
      min3 x y z = x) := by
  have hrefl : ∀ k : Nat × Int, keyLt k k = false := by
    intro k; rw [keyLt_ff_iff]; omega
  unfold min3
  by_cases h1 : keyLt (growKey y) (growKey x) = true
  · rw [if_pos h1]
    have a1 := (keyLt_iff _ _).mp h1
    by_cases h2 : keyLt (growKey z) (growKey y) = true
    · rw [if_pos h2]
      have a2 := (keyLt_iff _ _).mp h2
      refine ⟨Or.inr (Or.inr rfl), ?_, ?_, hrefl _, ?_⟩
      · rw [keyLt_ff_iff]; omega
      · rw [keyLt_ff_iff]; omega
      · intro ha _
        exact absurd a1 ((keyLt_ff_iff _ _).mp ha.2)
    · rw [if_neg h2]
      have h2f : keyLt (growKey z) (growKey y) = false := by
        revert h2; cases keyLt (growKey z) (growKey y) <;> simp
      refine ⟨Or.inr (Or.inl rfl), ?_, hrefl _, h2f, ?_⟩
      · rw [keyLt_ff_iff]; omega
      · intro ha _
        exact absurd a1 ((keyLt_ff_iff _ _).mp ha.2)
  · rw [if_neg h1]
    have h1f : keyLt (growKey y) (growKey x) = false := by
      revert h1; cases keyLt (growKey y) (growKey x) <;> simp
    have a1 := (keyLt_ff_iff _ _).mp h1f
    by_cases h2 : keyLt (growKey z) (growKey x) = true
    · rw [if_pos h2]
      have a2 := (keyLt_iff _ _).mp h2
      refine ⟨Or.inr (Or.inr rfl), ?_, ?_, hrefl _, ?_⟩
      · rw [keyLt_ff_iff]; omega
      · rw [keyLt_ff_iff]; omega
      · intro _ hb
        exact absurd a2 ((keyLt_ff_iff _ _).mp hb.2)
    · rw [if_neg h2]
      have h2f : keyLt (growKey z) (growKey x) = false := by
        revert h2; cases keyLt (growKey z) (growKey x) <;> simp
      exact ⟨Or.inl rfl, hrefl _, h1f, h2f, fun _ _ => rfl⟩

/-- On a well-formed id and a positive amount, `grow` always succeeds. -/
theorem Event.grow_ok : ∀ i : ID, i.wf = true → ∀ (e : Event) (n : Int),
    0 < n → ∃ v, e.grow i n = .ok v := by
  intro i
  induction i with
  | leaf v =>
    intro _ e n hn
    rw [Event.grow]
    simp only [if_neg (by omega : ¬ n ≤ 0)]
    by_cases hv : v = 1
    · refine ⟨.mk (e.height + n) none none, ?_⟩
      simp [hv]
    · refine ⟨e, ?_⟩
      simp [hv]
  | node l r ihl ihr =>
    intro hw e n hn
    simp only [ID.wf, Bool.and_eq_true, Bool.or_eq_true] at hw
    obtain ⟨⟨hwl, hwr⟩, hlr⟩ := hw
    rw [Event.grow]
    simp only [if_neg (by omega : ¬ n ≤ 0)]
    by_cases hl : l.truthy = true
    · by_cases hr : r.truthy = true
      · obtain ⟨tl, htl⟩ := ihl hwl (Event.orEmpty e.top_left) n hn
        obtain ⟨tr, htr⟩ := ihr hwr (Event.orEmpty e.top_right) n hn
        simp only [hl, hr, Bool.and_self, if_true]
        rw [htl, htr]
        exact ⟨_, rfl⟩
      · have hrf : r.truthy = false := by revert hr; cases r.truthy <;> simp
        obtain ⟨tl, htl⟩ := ihl hwl (Event.orEmpty e.top_left) n hn
        simp only [hl, hrf, Bool.and_false, Bool.false_eq_true, if_false, if_true]
        rw [htl]
        exact ⟨_, rfl⟩
    · have hlf : l.truthy = false := by revert hl; cases l.truthy <;> simp
      have hr : r.truthy = true := by
        rcases hlr with h | h
        · exact absurd h hl
        · exact h
      obtain ⟨tr, htr⟩ := ihr hwr (Event.orEmpty e.top_right) n hn
      simp only [hlf, Bool.false_and, Bool.false_eq_true, if_false, hr, if_true]
      rw [htr]
      exact ⟨_, rfl⟩

theorem keyLt_self (k : Nat × Int) : keyLt k k = false := by
  rw [keyLt_ff_iff]; omega

/-- C2 (counterexample): at a concrete event and id all three grow
candidates tie on `(complexity, height)`, yet `grow` returns the grow-left
candidate, which differs from the grow-both candidate — Python's `min`
keeps the first minimal element of `[grow_left, grow_right, grow_both]`,
so a three-way tie is broken toward grow-left, not grow-both as claimed. -/
theorem C2_grow_tie_cex :
    Event.wf (.mk 0 (some (.mk 0 (some (.mk 2 none none)) none))
      (some (.mk 0 (some (.mk 2 none none)) none))) = true ∧
    ID.wf (.node (.node (.leaf 0) (.leaf 1)) (.node (.leaf 0) (.leaf 1))) = true ∧
    growKey (.mk 0 (some (.mk 1 (some (.mk 1 none none)) none))
        (some (.mk 0 (some (.mk 2 none none)) none)))
      = growKey (.mk 0 (some (.mk 0 (some (.mk 2 none none)) none))
        (some (.mk 1 (some (.mk 1 none none)) none))) ∧
    growKey (.mk 0 (some (.mk 0 (some (.mk 2 none none)) none))
        (some (.mk 1 (some (.mk 1 none none)) none)))
      = growKey (.mk 1 (some (.mk 0 (some (.mk 1 none none)) none))
        (some (.mk 0 (some (.mk 1 none none)) none))) ∧
    Event.grow
        (.mk 0 (some (.mk 0 (some (.mk 2 none none)) none))
          (some (.mk 0 (some (.mk 2 none none)) none)))
        (.node (.node (.leaf 0) (.leaf 1)) (.node (.leaf 0) (.leaf 1))) 1
      = .ok (.mk 0 (some (.mk 1 (some (.mk 1 none none)) none))
          (some (.mk 0 (some (.mk 2 none none)) none))) ∧
    (Event.mk 0 (some (.mk 1 (some (.mk 1 none none)) none))
        (some (.mk 0 (some (.mk 2 none none)) none)))
      ≠ (Event.mk 1 (some (.mk 0 (some (.mk 1 none none)) none))
        (some (.mk 0 (some (.mk 1 none none)) none))) ∧
    (Event.mk 0 (some (.mk 1 (some (.mk 1 none none)) none))
        (some (.mk 0 (some (.mk 2 none none)) none)))
      = (Event.mk 0
          (some (.mk 1 (some (.mk 1 none none)) none))
          (some (.mk 0 (some (.mk 2 none none)) none))).normalize ∧
    (Event.mk 1 (some (.mk 0 (some (.mk 1 none none)) none))
        (some (.mk 0 (some (.mk 1 none none)) none)))
      = (Event.mk 0
          (some (.mk 1 (some (.mk 1 none none)) none))
          (some (.mk 1 (some (.mk 1 none none)) none))).normalize ∧
    (Event.orEmpty (some (.mk 0 (some (.mk 2 none none)) none))).grow
        (.node (.leaf 0) (.leaf 1)) 1
      = .ok (.mk 1 (some (.mk 1 none none)) none) := by
  refine ⟨by decide, by decide, by decide, by decide, rfl, by decide, rfl, rfl, rfl⟩

/-- C2 (amended): for every event `e`, well-formed id halves `l`, `r` that
are both non-empty and every positive amount, `grow(e, Node(l, r))`
returns one of the three normalized candidates (grow-left, grow-right,
grow-both), none of the candidates has a lexicographically smaller
`(complexity, height)` key than the returned one, and ties are broken
toward the earliest candidate in the order (grow-left, grow-right,
grow-both): in particular when all three keys are equal the grow-left
candidate is returned. -/
theorem C2_grow_node_minimal (e : Event) (l r : ID) (n : Int)
    (hwl : l.wf = true) (hwr : r.wf = true)
    (hl : l.truthy = true) (hr : r.truthy = true) (hn : 0 < n) :
    ∃ tl tr res : Event,
      (Event.orEmpty e.top_left).grow l n = .ok tl ∧
      (Event.orEmpty e.top_right).grow r n = .ok tr ∧
      e.grow (.node l r) n = .ok res ∧
      (res = (Event.mk e.base (some tl) e.top_right).normalize ∨
       res = (Event.mk e.base e.top_left (some tr)).normalize ∨
       res = (Event.mk e.base (some tl) (some tr)).normalize) ∧
      keyLt (growKey ((Event.mk e.base (some tl) e.top_right).normalize))
        (growKey res) = false ∧
      keyLt (growKey ((Event.mk e.base e.top_left (some tr)).normalize))
        (growKey res) = false ∧
      keyLt (growKey ((Event.mk e.base (some tl) (some tr)).normalize))
        (growKey res) = false ∧
      (growKey ((Event.mk e.base (some tl) e.top_right).normalize)
          = growKey ((Event.mk e.base e.top_left (some tr)).normalize) →
       growKey ((Event.mk e.base (some tl) e.top_right).normalize)
          = growKey ((Event.mk e.base (some tl) (some tr)).normalize) →
       res = (Event.mk e.base (some tl) e.top_right).normalize) := by
  obtain ⟨tl, htl⟩ := Event.grow_ok l hwl (Event.orEmpty e.top_left) n hn
  obtain ⟨tr, htr⟩ := Event.grow_ok r hwr (Event.orEmpty e.top_right) n hn
  have hg : e.grow (.node l r) n
      = .ok (min3 ((Event.mk e.base (some tl) e.top_right).normalize)
          ((Event.mk e.base e.top_left (some tr)).normalize)
          ((Event.mk e.base (some tl) (some tr)).normalize)) := by
    rw [Event.grow]
    simp only [if_neg (by omega : ¬ n ≤ 0), hl, hr, Bool.and_self, if_true]
    rw [htl, htr]
  obtain ⟨hmem, h1, h2, h3, h4⟩ :=
    min3_spec ((Event.mk e.base (some tl) e.top_right).normalize)
      ((Event.mk e.base e.top_left (some tr)).normalize)
      ((Event.mk e.base (some tl) (some tr)).normalize)
  refine ⟨tl, tr, _, htl, htr, hg, hmem, h1, h2, h3, ?_⟩
  intro e1 e2
  apply h4
  · exact ⟨by rw [e1]; exact keyLt_self _, by rw [← e1]; exact keyLt_self _⟩
  · exact ⟨by rw [e2]; exact keyLt_self _, by rw [← e2]; exact keyLt_self _⟩

/-- Witness for C2 at the empty event, id `Node(Leaf(1), Leaf(1))` and
amount 1. -/
theorem C2_grow_node_minimal_witness :
    (ID.leaf 1).wf = true ∧ (ID.leaf 1).truthy = true ∧ (0:Int) < 1 ∧
    ∃ tl tr res : Event,
      (Event.orEmpty Event.empty.top_left).grow (.leaf 1) 1 = .ok tl ∧
      (Event.orEmpty Event.empty.top_right).grow (.leaf 1) 1 = .ok tr ∧
      Event.empty.grow (.node (.leaf 1) (.leaf 1)) 1 = .ok res ∧
      (res = (Event.mk Event.empty.base (some tl) Event.empty.top_right).normalize ∨
       res = (Event.mk Event.empty.base Event.empty.top_left (some tr)).normalize ∨
       res = (Event.mk Event.empty.base (some tl) (some tr)).normalize) ∧
      keyLt (growKey ((Event.mk Event.empty.base (some tl) Event.empty.top_right).normalize))
        (growKey res) = false ∧
      keyLt (growKey ((Event.mk Event.empty.base Event.empty.top_left (some tr)).normalize))
        (growKey res) = false ∧
      keyLt (growKey ((Event.mk Event.empty.base (some tl) (some tr)).normalize))
        (growKey res) = false ∧
      (growKey ((Event.mk Event.empty.base (some tl) Event.empty.top_right).normalize)
          = growKey ((Event.mk Event.empty.base Event.empty.top_left (some tr)).normalize) →
       growKey ((Event.mk Event.empty.base (some tl) Event.empty.top_right).normalize)
          = growKey ((Event.mk Event.empty.base (some tl) (some tr)).normalize) →
       res = (Event.mk Event.empty.base (some tl) Event.empty.top_right).normalize) :=
  ⟨by decide, by decide, by decide,
    C2_grow_node_minimal Event.empty (.leaf 1) (.leaf 1) 1
      (by decide) (by decide) (by decide) (by decide) (by decide)⟩

/-! ## C5: canonicality -/

/-- The well-formedness condition on one optional top. -/
def topOk : Option Event → Bool
  | some t => t.truthy && t.wf
  | none => true

/-- The canonicality condition on one optional top. -/
def canTop : Option Event → Bool
  | some t => t.truthy && t.canonical
  | none => true

/-- The E3 minimum condition on a pair of optional tops. -/
def minOk : Option Event → Option Event → Bool
  | some l, some r => min l.base r.base == 0
  | _, _ => true

theorem Event.wf_mk (b : Int) (tl tr : Option Event) :
    (Event.mk b tl tr).wf = (decide (0 ≤ b) && topOk tl && topOk tr) := by
  cases tl <;> cases tr <;> rfl

theorem Event.canonical_mk (b : Int) (tl tr : Option Event) :
    (Event.mk b tl tr).canonical = (canTop tl && canTop tr && minOk tl tr) := by
  cases tl <;> cases tr <;> rfl

theorem Event.wf_base {e : Event} (h : e.wf = true) : 0 ≤ e.base := by
  cases e with
  | mk b tl tr =>
    rw [Event.wf_mk] at h
    simp only [Bool.and_eq_true, decide_eq_true_eq] at h
    exact h.1.1

theorem Event.replace_base_base (n : Event) (b' : Int) :
    (n.replace_base b').base = b' := by
  cases n; rfl

theorem Event.truthy_false_iff (b : Int) (tl tr : Option Event) :
    (Event.mk b tl tr).truthy = false ↔ b = 0 ∧ tl = none ∧ tr = none := by
  cases tl <;> cases tr <;> simp [Event.truthy]

theorem Event.orNone_eq_none_iff (e : Event) :
    e.orNone = none ↔ e.truthy = false := by
  unfold Event.orNone
  cases h : e.truthy <;> simp

theorem Event.orNone_eq_some_iff (e u : Event) :
    e.orNone = some u ↔ (e.truthy = true ∧ u = e) := by
  unfold Event.orNone
  cases h : e.truthy <;> simp
  exact ⟨fun hh => hh.symm, fun hh => hh.symm⟩

theorem Event.replace_base_wf (n : Event) (b' : Int)
    (hw : n.wf = true) (hb : 0 ≤ b') : (n.replace_base b').wf = true := by
  cases n with
  | mk nb ntl ntr =>
    rw [Event.wf_mk] at hw
    simp only [Bool.and_eq_true, decide_eq_true_eq] at hw
    obtain ⟨⟨_, h1⟩, h2⟩ := hw
    rw [Event.replace_base, Event.wf_mk]
    simp only [Bool.and_eq_true, decide_eq_true_eq]
    refine ⟨⟨hb, ?_⟩, ?_⟩
    · cases ntl with
      | none => rfl
      | some t =>
        simp only [topOk, Bool.and_eq_true] at h1
        simp [optOrNone, topOk, h1.1, h1.2]
    · cases ntr with
      | none => rfl
      | some t =>
        simp only [topOk, Bool.and_eq_true] at h2
        simp [optOrNone, topOk, h2.1, h2.2]

theorem optOrNone_of_canTop {o : Option Event} (h : canTop o = true) :
    optOrNone o = o := by
  cases o with
  | none => rfl
  | some t =>
    simp only [canTop, Bool.and_eq_true] at h
    simp [optOrNone, h.1]

theorem optOrNone_of_topOk {o : Option Event} (h : topOk o = true) :
    optOrNone o = o := by
  cases o with
  | none => rfl
  | some t =>
    simp only [topOk, Bool.and_eq_true] at h
    simp [optOrNone, h.1]

theorem Event.replace_base_canonical (n : Event) (b' : Int)
    (hc : n.canonical = true) : (n.replace_base b').canonical = true := by
  cases n with
  | mk nb ntl ntr =>
    rw [Event.canonical_mk] at hc
    simp only [Bool.and_eq_true] at hc
    obtain ⟨⟨h1, h2⟩, h3⟩ := hc
    rw [Event.replace_base, Event.canonical_mk,
      optOrNone_of_canTop h1, optOrNone_of_canTop h2]
    simp [h1, h2, h3]

theorem Event.replace_orNone_none {n : Event} {b' : Int}
    (hc : n.canonical = true) (h : (n.replace_base b').orNone = none) :
    b' = 0 ∧ n.top_left = none ∧ n.top_right = none := by
  cases n with
  | mk nb ntl ntr =>
    rw [Event.canonical_mk] at hc
    simp only [Bool.and_eq_true] at hc
    rw [Event.replace_base, Event.orNone_eq_none_iff, Event.truthy_false_iff] at h
    obtain ⟨hb0, hl, hr⟩ := h
    rw [optOrNone_of_canTop hc.1.1] at hl
    rw [optOrNone_of_canTop hc.1.2] at hr
    exact ⟨hb0, hl, hr⟩

/-- Normalization of a well-formed event is well-formed, canonical, and
preserves truthiness. -/
theorem Event.normalize_props : ∀ e : Event, e.wf = true →
    e.normalize.wf = true ∧ e.normalize.canonical = true ∧
    (e.truthy = true → e.normalize.truthy = true) := by
  intro e
  induction e using Event.induct with
  | h b tl tr ihl ihr =>
    intro hw
    rw [Event.wf_mk] at hw
    simp only [Bool.and_eq_true, decide_eq_true_eq] at hw
    obtain ⟨⟨hb, h1⟩, h2⟩ := hw
    cases tl with
    | none =>
      cases tr with
      | none =>
        rw [show (Event.mk b none none).normalize = .mk b none none from rfl]
        refine ⟨?_, by rw [Event.canonical_mk]; rfl, fun h => h⟩
        rw [Event.wf_mk]
        simp [topOk, hb]
      | some y =>
        simp only [topOk, Bool.and_eq_true] at h2
        obtain ⟨hty, hwy⟩ := h2
        obtain ⟨hwn, hcn, htn⟩ := ihr y rfl hwy
        rw [show (Event.mk b none (some y)).normalize
            = .mk b none (some y.normalize) from rfl]
        refine ⟨?_, ?_, ?_⟩
        · rw [Event.wf_mk]
          simp [topOk, hb, hwn, htn hty]
        · rw [Event.canonical_mk]
          simp [canTop, minOk, hcn, htn hty]
        · intro _
          simp [Event.truthy]
    | some x =>
      simp only [topOk, Bool.and_eq_true] at h1
      obtain ⟨htx, hwx⟩ := h1
      obtain ⟨hwnx, hcnx, htnx⟩ := ihl x rfl hwx
      cases tr with
      | none =>
        rw [show (Event.mk b (some x) none).normalize
            = .mk b (some x.normalize) none from rfl]
        refine ⟨?_, ?_, ?_⟩
        · rw [Event.wf_mk]
          simp [topOk, hb, hwnx, htnx htx]
        · rw [Event.canonical_mk]
          simp [canTop, minOk, hcnx, htnx htx]
        · intro _
          simp [Event.truthy]
      | some y =>
        simp only [topOk, Bool.and_eq_true] at h2
        obtain ⟨hty, hwy⟩ := h2
        obtain ⟨hwny, hcny, htny⟩ := ihr y rfl hwy
        have hXb : 0 ≤ x.normalize.base := Event.wf_base hwnx
        have hYb : 0 ≤ y.normalize.base := Event.wf_base hwny
        have hdx : min x.normalize.base y.normalize.base ≤ x.normalize.base :=
          min_le_left _ _
        have hdy : min x.normalize.base y.normalize.base ≤ y.normalize.base :=
          min_le_right _ _
        have hd0 : 0 ≤ min x.normalize.base y.normalize.base := le_min hXb hYb
        rw [show (Event.mk b (some x) (some y)).normalize
            = .mk (b + min x.normalize.base y.normalize.base)
              ((x.normalize.replace_base
                (x.normalize.base - min x.normalize.base y.normalize.base)).orNone)
              ((y.normalize.replace_base
                (y.normalize.base - min x.normalize.base y.normalize.base)).orNone)
            from rfl]
        have hwx' := Event.replace_base_wf x.normalize
          (x.normalize.base - min x.normalize.base y.normalize.base) hwnx (by omega)
        have hwy' := Event.replace_base_wf y.normalize
          (y.normalize.base - min x.normalize.base y.normalize.base) hwny (by omega)
        have hcx' := Event.replace_base_canonical x.normalize
          (x.normalize.base - min x.normalize.base y.normalize.base) hcnx
        have hcy' := Event.replace_base_canonical y.normalize
          (y.normalize.base - min x.normalize.base y.normalize.base) hcny
        refine ⟨?_, ?_, ?_⟩
        · rw [Event.wf_mk]
          simp only [Bool.and_eq_true, decide_eq_true_eq]
          refine ⟨⟨by omega, ?_⟩, ?_⟩
          · cases hX : (x.normalize.replace_base
                (x.normalize.base - min x.normalize.base y.normalize.base)).orNone with
            | none => rfl
            | some u =>
              rw [Event.orNone_eq_some_iff] at hX
              obtain ⟨htu, rfl⟩ := hX
              simp [topOk, htu, hwx']
          · cases hY : (y.normalize.replace_base
                (y.normalize.base - min x.normalize.base y.normalize.base)).orNone with
            | none => rfl
            | some v =>
              rw [Event.orNone_eq_some_iff] at hY
              obtain ⟨htv, rfl⟩ := hY
              simp [topOk, htv, hwy']
        · rw [Event.canonical_mk]
          simp only [Bool.and_eq_true]
          refine ⟨⟨?_, ?_⟩, ?_⟩
          · cases hX : (x.normalize.replace_base
                (x.normalize.base - min x.normalize.base y.normalize.base)).orNone with
            | none => rfl
            | some u =>
              rw [Event.orNone_eq_some_iff] at hX
              obtain ⟨htu, rfl⟩ := hX
              simp [canTop, htu, hcx']
          · cases hY : (y.normalize.replace_base
                (y.normalize.base - min x.normalize.base y.normalize.base)).orNone with
            | none => rfl
            | some v =>
              rw [Event.orNone_eq_some_iff] at hY
              obtain ⟨htv, rfl⟩ := hY
              simp [canTop, htv, hcy']
          · cases hX : (x.normalize.replace_base
                (x.normalize.base - min x.normalize.base y.normalize.base)).orNone with
            | none =>
              cases hY : (y.normalize.replace_base
                  (y.normalize.base - min x.normalize.base y.normalize.base)).orNone with
              | none => rfl
              | some v => rfl
            | some u =>
              cases hY : (y.normalize.replace_base
                  (y.normalize.base - min x.normalize.base y.normalize.base)).orNone with
              | none => rfl
              | some v =>
                rw [Event.orNone_eq_some_iff] at hX hY
                obtain ⟨htu, rfl⟩ := hX
                obtain ⟨htv, rfl⟩ := hY
                simp only [minOk, Event.replace_base_base, beq_iff_eq]
                omega
        · intro _
          cases hX : (x.normalize.replace_base
              (x.normalize.base - min x.normalize.base y.normalize.base)).orNone with
          | some u => simp [Event.truthy]
          | none =>
            cases hY : (y.normalize.replace_base
                (y.normalize.base - min x.normalize.base y.normalize.base)).orNone with
            | some v => simp [Event.truthy]
            | none =>
              obtain ⟨hb0x, hlx, hrx⟩ := Event.replace_orNone_none hcnx hX
              have htX : x.normalize.truthy = true := htnx htx
              have hXne : x.normalize.base ≠ 0 := by
                cases hxn : x.normalize with
                | mk nb ntl ntr =>
                  rw [hxn] at htX hlx hrx
                  simp only [Event.top_left, Event.top_right] at hlx hrx
                  subst hlx
                  subst hrx
                  simp only [Event.truthy, Option.isSome_none, Bool.or_false] at htX
                  simp only [Event.base]
                  simpa using htX
              simp only [Event.truthy, Option.isSome_none, Bool.or_false]
              simp only [bne_iff_ne]
              omega

/-- C5 (counterexample): `Event.join` does not normalize its result. The
canonical well-formed events `(1, (1,∅,∅), ∅)` and `(1, ∅, (1,∅,∅))` (the
two concurrent events of the spec's scenario 2) join to
`(1, (1,∅,∅), (1,∅,∅))`, whose two present tops have `min` of bases `1`,
violating the claimed canonical form E3. -/
theorem C5_join_not_canonical :
    Event.wf (.mk 1 (some (.mk 1 none none)) none) = true ∧
    Event.canonical (.mk 1 (some (.mk 1 none none)) none) = true ∧
    Event.wf (.mk 1 none (some (.mk 1 none none))) = true ∧
    Event.canonical (.mk 1 none (some (.mk 1 none none))) = true ∧
    Event.join (.mk 1 (some (.mk 1 none none)) none)
        (.mk 1 none (some (.mk 1 none none)))
      = .mk 1 (some (.mk 1 none none)) (some (.mk 1 none none)) ∧
    Event.canonical
      (Event.join (.mk 1 (some (.mk 1 none none)) none)
        (.mk 1 none (some (.mk 1 none none)))) = false := by
  have hj : Event.join (.mk 1 (some (.mk 1 none none)) none)
      (.mk 1 none (some (.mk 1 none none)))
      = .mk 1 (some (.mk 1 none none)) (some (.mk 1 none none)) := by
    rw [Event.join.eq_def]
    simp [Event.truthy, Event.base, Event.top_left, Event.top_right,
      Event.offset_base, optOrNone, Event.orNone]
  refine ⟨by decide, by decide, by decide, by decide, hj, ?_⟩
  rw [hj]
  decide

/-- C5 (amended): `Event.normalize` returns a canonical value on every
well-formed input — no present-but-empty top, and wherever both tops are
present the smaller of their bases is `0`. (The other Event operations do
not share this guarantee: `join` returns its result un-normalized, and
`fill`/`grow` return the input unchanged when the id is empty.) -/
theorem C5_normalize_canonical (e : Event) (hw : e.wf = true) :
    e.normalize.canonical = true :=
  (Event.normalize_props e hw).2.1

/-- Witness for C5 at a concrete well-formed, non-canonical event. -/
theorem C5_normalize_canonical_witness :
    Event.wf (.mk 0 (some (.mk 2 none none)) (some (.mk 1 none none))) = true ∧
    Event.canonical
      (Event.normalize (.mk 0 (some (.mk 2 none none)) (some (.mk 1 none none))))
      = true :=
  ⟨by decide,
    C5_normalize_canonical (.mk 0 (some (.mk 2 none none)) (some (.mk 1 none none)))
      (by decide)⟩

/-! ## C1: fill on a node id -/

/-- C1: `fill` crashes instead of recursing. At the well-formed event
`(0, (1,∅,∅), ∅)` with a present top and the id `Node(Leaf(1), Leaf(0))`,
`fill` raises `AttributeError`: the source passes the class attribute
`IDTuple.left` (which does not exist) instead of `interval.left` to the
recursive call. -/
theorem C1_fill_raises_attribute_error :
    Event.wf (.mk 0 (some (.mk 1 none none)) none) = true ∧
    optTruthy (Event.top_left (.mk 0 (some (.mk 1 none none)) none)) = true ∧
    ID.wf (.node (.leaf 1) (.leaf 0)) = true ∧
    Event.fill (.mk 0 (some (.mk 1 none none)) none) (.node (.leaf 1) (.leaf 0))
      = .error .attributeError :=
  ⟨by decide, by decide, by decide, rfl⟩

/-! ## C4: leq versus the pointwise denotation -/

/-- C4: `leq` is not the pointwise order. At the well-formed events
`a = (0, (1, (1,∅,∅), ∅), ∅)` (pointwise values 2, 1, 0) and
`b = (2, ∅, ∅)` (constant 2) the denotation is pointwise `≤`, but
`Event.__le__` returns `False`: `offset_base` passes `top.base + base`
instead of `base` to the recursive truncation, so the shifted top of `a`
is over-estimated. -/
theorem C4_le_not_pointwise :
    Event.wf (.mk 0 (some (.mk 1 (some (.mk 1 none none)) none)) none) = true ∧
    Event.wf (.mk 2 none none) = true ∧
    (∀ s : Nat → Bool,
      valueAt (.mk 0 (some (.mk 1 (some (.mk 1 none none)) none)) none) s
        ≤ valueAt (.mk 2 none none) s) ∧
    Event.le (.mk 0 (some (.mk 1 (some (.mk 1 none none)) none)) none)
      (.mk 2 none none) = false := by
  refine ⟨by decide, by decide, ?_, ?_⟩
  · intro s
    have hB : valueAt (.mk 2 none none) s = 2 := by
      unfold valueAt
      cases h0 : s 0 <;> simp [h0]
    rw [hB]
    unfold valueAt
    cases h0 : s 0
    · simp [h0]
    · simp only [h0, if_true]
      unfold valueAt
      cases h1 : s (0 + 1)
      · simp [h1]
      · simp only [h1, if_true]
        unfold valueAt
        cases h2 : s (0 + 1 + 1)
        · simp [h2]
        · simp [h2]
  · simp [Event.le, Event.normalize, Event.truthy, Event.base,
      Event.top_left, Event.top_right, Event.offset_base, Event.orEmpty,
      Event.empty, optOrNone, Event.orNone, Event.replace_base]

/-! ## C6: offset_base versus the spec's truncate -/

/-- C6: the spec's `truncate(e, d)` disagrees with the code's
`offset_base(e, -d)`. At the well-formed event `(1, (2,∅,∅), ∅)` and
`d = 2`, the code returns `(0, (3,∅,∅), ∅)` — the recursive call receives
distance `top.base + base`, which *raises* the top's base — while the
spec's truncation (deficit pushed into the top by lowering its base)
yields `(0, (1,∅,∅), ∅)`. -/
theorem C6_offset_base_vs_truncate :
    Event.wf (.mk 1 (some (.mk 2 none none)) none) = true ∧
    Event.offset_base (.mk 1 (some (.mk 2 none none)) none) (-2)
      = .mk 0 (some (.mk 3 none none)) none ∧
    truncate_spec (.mk 1 (some (.mk 2 none none)) none) 2
      = .mk 0 (some (.mk 1 none none)) none ∧
    Event.offset_base (.mk 1 (some (.mk 2 none none)) none) (-2)
      ≠ truncate_spec (.mk 1 (some (.mk 2 none none)) none) 2 :=
  ⟨by decide, rfl, rfl, by decide⟩

/-! ## C8: constructor checks -/

/-- C8: construction fails exactly on the invariant-violating shapes:
`Event.__post_init__` accepts `(base, top_left, top_right)` iff the base is
non-negative and every present top is non-empty (truthy), and
`IDTuple.__post_init__` accepts `(left, right)` iff the tuple is not wholly
empty. (The source realises the invariant-violation family as `ValueError`
and `TypeError`.) -/
theorem C8_post_init_checks :
    (∀ (b : Int) (tl tr : Option Event),
      event_post_init b tl tr = .ok () ↔
        (0 ≤ b ∧ (tl = none ∨ optTruthy tl = true) ∧
          (tr = none ∨ optTruthy tr = true))) ∧
    (∀ l r : ID, idtuple_post_init l r = .ok ()
        ↔ (l.truthy = true ∨ r.truthy = true)) := by
  constructor
  · intro b tl tr
    unfold event_post_init
    by_cases hb : b < 0
    · rw [if_pos hb]
      constructor
      · intro h; cases h
      · intro h; omega
    · rw [if_neg hb]
      cases tl with
      | none =>
        cases tr with
        | none =>
          simp only [optTruthy]
          constructor
          · intro _
            exact ⟨by omega, Or.inl trivial, Or.inl trivial⟩
          · intro _
            trivial
        | some u =>
          cases hu : u.truthy <;> simp [optTruthy, hu] <;> omega
      | some t =>
        cases ht : t.truthy with
        | false =>
          simp [optTruthy, ht]
        | true =>
          cases tr with
          | none => simp [optTruthy, ht] <;> omega
          | some u =>
            cases hu : u.truthy <;> simp [optTruthy, ht, hu] <;> omega
  · intro l r
    unfold idtuple_post_init
    by_cases h : (l.truthy || r.truthy) = true
    · rw [if_pos h]
      simp only [Bool.or_eq_true] at h
      exact ⟨fun _ => h, fun _ => rfl⟩
    · rw [if_neg h]
      simp only [Bool.or_eq_true] at h
      constructor
      · intro hh; cases hh
      · intro hh; exact absurd hh h

/-! ## C9 and C10: grow's amount guard and its full-interval case -/

/-- C9: `grow` rejects a non-positive amount with `ValueError` before
inspecting the event or the id: for every event `e` and every id `i`
(well-formed or not), `grow(e, i, n)` with `n ≤ 0` returns the
`ValueError`. (The companion `TypeError` on non-integer amounts is a
Python typing fact outside the typed embedding.) -/
theorem C9_grow_rejects_nonpositive (e : Event) (i : ID) (n : Int)
    (hn : n ≤ 0) : e.grow i n = .error .valueError := by
  cases i with
  | leaf v =>
    rw [Event.grow]
    rw [if_pos hn]
  | node l r =>
    rw [Event.grow]
    rw [if_pos hn]

/-- Witness for C9 at the empty event, the seed id, and amount 0. -/
theorem C9_grow_rejects_nonpositive_witness :
    (0 : Int) ≤ 0 ∧ Event.empty.grow (.leaf 1) 0 = .error .valueError :=
  ⟨by decide, C9_grow_rejects_nonpositive Event.empty (.leaf 1) 0 (by decide)⟩

/-- C10: for every well-formed event `e` — leaf or not — and every amount
`n ≥ 1`, `grow(e, Leaf(1), n)` returns the leaf event
`(height(e) + n, ∅, ∅)`, discarding any subtree structure of `e`. -/
theorem C10_grow_full_interval (e : Event) (n : Int)
    (hw : e.wf = true) (hn : 1 ≤ n) :
    e.grow (.leaf 1) n = .ok (.mk (e.height + n) none none) := by
  rw [Event.grow]
  rw [if_neg (by omega : ¬ n ≤ 0)]
  simp

/-- Witness for C10 at a non-leaf well-formed event and amount 2. -/
theorem C10_grow_full_interval_witness :
    Event.wf (.mk 0 (some (.mk 1 none none)) none) = true ∧ (1 : Int) ≤ 2 ∧
    Event.grow (.mk 0 (some (.mk 1 none none)) none) (.leaf 1) 2
      = .ok (.mk ((Event.mk 0 (some (.mk 1 none none)) none).height + 2)
          none none) :=
  ⟨by decide, by decide,
    C10_grow_full_interval (.mk 0 (some (.mk 1 none none)) none) 2
      (by decide) (by decide)⟩
